import Mathlib

/-!
Shallow embedding of `src/block_allocator.cpp` / `include/block_allocator.hpp`
(class `mem::BlockAllocator`), a fixed-size block allocator.

Modelling conventions:
* `std::size_t` arithmetic is `Nat` reduced modulo `USIZE = 2 ^ 64` exactly where
  the C++ computation can wrap (the `round_up` bit manipulation); elsewhere the
  source guards overflow explicitly and the guards are translated literally.
* Addresses are `Nat`; a `void *` that may be null is `Option Nat` with `none`
  for `nullptr`.  `posix_memalign` either fails (modelled by passing region
  base `0` to the constructor) or returns a nonzero base address.
* The target platform is LP64: `sizeof(FreeNode) = sizeof(void *) = 8` and
  `alignof(void *) = 8`.
* The embedded free-list lives inside the region; slot `i` starts at
  `region + i * stride`.  The `next` pointer stored at the start of slot `i`
  is modelled as entry `i` of the `links` list.  This memory model is faithful
  whenever the slots are pairwise disjoint, i.e. `0 < stride` (a well-formed
  stride is a multiple of `alignment ≥ 8`); `stride = 0` makes the C++
  divide by zero in `allocate`, which is undefined behaviour.
* Each operation returns the C++ result (`Except` for `throw`) together with
  the state of the member variables at the moment of return/throw, so that
  "a failing operation did not mutate anything" is a provable statement.
-/

namespace BlockAlloc

/-- `2 ^ 64`, one past the largest `std::size_t` value on the modelled platform. -/
def USIZE : Nat := 2 ^ 64

/-- `sizeof(BlockAllocator::FreeNode)`: one pointer, 8 bytes on LP64. -/
def FREENODE_SIZE : Nat := 8

/-- `alignof(void *)` on LP64. -/
def PTR_ALIGN : Nat := 8

/-- `BlockAllocator::round_up`:
`mask = align - 1; return (value + mask) & ~mask;` in `std::size_t`
arithmetic.  `align - 1` and `~mask` and the addition all wrap modulo
`2 ^ 64`; `~mask` for `mask < 2 ^ 64` is `2 ^ 64 - 1 - mask`. -/
def round_up (value align : Nat) : Nat :=
  let mask := (align + (USIZE - 1)) % USIZE
  Nat.land ((value + mask) % USIZE) (USIZE - 1 - mask)

/-- `BlockAllocator::is_power_of_two`: `x && ((x & (x - 1)) == 0)`. -/
def is_power_of_two (x : Nat) : Bool :=
  x != 0 && Nat.land x (x - 1) == 0

/-- The construction-time configuration of a pool: the four sizes stored in
`block_size_`, `block_count_`, `alignment_`, `stride_` plus the region base
address `region_`.  All are immutable after construction. -/
structure Config where
  block_size : Nat
  block_count : Nat
  alignment : Nat
  stride : Nat
  region : Nat
deriving Repr, DecidableEq

/-- The mutable members of `BlockAllocator`: the free-list head `free_list_`,
the `next` pointers embedded in the region (entry `i` is the pointer stored at
the start of slot `i`; only meaningful while slot `i` is free), `free_count_`,
and the `occupancy_` byte vector. -/
structure AllocState where
  free_list : Option Nat
  links : List (Option Nat)
  free_count : Nat
  occupancy : List Nat
deriving Repr, DecidableEq

/-- The exceptions the allocator throws, one constructor per distinct
`throw` site.  `invalidSizeCount`, `invalidAlignment`, `sizeOverflow` are the
three `std::invalid_argument` sites of the constructor (the spec's
InvalidConfiguration); `badAlloc` is `std::bad_alloc` (ResourceExhausted);
`foreignPointer` and `doubleFree` are the two `std::runtime_error` sites of
`deallocate` (InvalidRelease); `ptrOutOfRange` and `ptrMisaligned` are the
two `std::runtime_error` sites of `index_from_ptr_unlocked`. -/
inductive AllocError where
  | invalidSizeCount
  | invalidAlignment
  | sizeOverflow
  | badAlloc
  | foreignPointer
  | doubleFree
  | ptrOutOfRange
  | ptrMisaligned
deriving Repr, DecidableEq

/-- The constructor loop
`for i in [0, block_count): node = region + i*stride; node->next = free_list_; free_list_ = node;`
returning the final head and the per-slot stored `next` pointers. -/
def buildFreeList (region stride count : Nat) : Option Nat × List (Option Nat) :=
  (List.range count).foldl
    (fun acc i => (some (region + i * stride), acc.2 ++ [acc.1]))
    (none, [])

/-- The `BlockAllocator` constructor.  `region` models the address returned by
`posix_memalign` for the computed total size: `0` models allocation failure
(`nullptr`), any other value models success.  On success the result is the
configuration together with the initial member state. -/
def mkAllocator (block_size block_count alignment region : Nat) :
    Except AllocError (Config × AllocState) :=
  if block_size == 0 || block_count == 0 then
    .error .invalidSizeCount
  else if !is_power_of_two alignment || alignment < PTR_ALIGN then
    .error .invalidAlignment
  else
    let min_stride := max block_size FREENODE_SIZE
    let stride := round_up min_stride alignment
    if stride > (USIZE - 1) / block_count then
      .error .sizeOverflow
    else if region == 0 then
      .error .badAlloc
    else
      let init := buildFreeList region stride block_count
      .ok (⟨block_size, block_count, alignment, stride, region⟩,
           ⟨init.1, init.2, block_count, List.replicate block_count 0⟩)

/-- `BlockAllocator::is_from_region_unlocked`:
`addr >= region_ && addr < region_ + stride_ * block_count_ && (addr - region_) % stride_ == 0`. -/
def is_from_region (cfg : Config) (addr : Nat) : Bool :=
  decide (cfg.region ≤ addr) &&
  decide (addr < cfg.region + cfg.stride * cfg.block_count) &&
  (addr - cfg.region) % cfg.stride == 0

/-- `BlockAllocator::index_from_ptr_unlocked`: re-checks the range and the
stride alignment (throwing `std::runtime_error` on failure) and returns
`(addr - region_) / stride_`. -/
def index_from_ptr (cfg : Config) (addr : Nat) : Except AllocError Nat :=
  if !(decide (cfg.region ≤ addr) && decide (addr < cfg.region + cfg.stride * cfg.block_count)) then
    .error .ptrOutOfRange
  else if (addr - cfg.region) % cfg.stride != 0 then
    .error .ptrMisaligned
  else
    .ok ((addr - cfg.region) / cfg.stride)

/-- `BlockAllocator::allocate`.  Under the lock: if the free-list is empty,
throw `std::bad_alloc`; otherwise pop the head node (reading its embedded
`next` pointer), decrement `free_count_`, mark the slot's occupancy byte, and
return the node's address.  The second component is the member state at
return/throw time. -/
def allocate (cfg : Config) (s : AllocState) : Except AllocError Nat × AllocState :=
  match s.free_list with
  | none => (.error .badAlloc, s)
  | some node =>
    let idx := (node - cfg.region) / cfg.stride
    (.ok node,
     { free_list := s.links.getD idx none
       links := s.links
       free_count := s.free_count - 1
       occupancy := s.occupancy.set idx 1 })

/-- `BlockAllocator::deallocate`.  A null pointer returns immediately (before
the lock).  Under the lock: a pointer failing `is_from_region_unlocked` throws
the foreign-pointer `std::runtime_error`; then the index is recomputed by
`index_from_ptr_unlocked`; a zero occupancy byte throws the double-free
`std::runtime_error`; otherwise the node is pushed on the free-list head, its
occupancy byte is decremented to zero, and `free_count_` is incremented. -/
def deallocate (cfg : Config) (s : AllocState) (p : Option Nat) :
    Except AllocError Unit × AllocState :=
  match p with
  | none => (.ok (), s)
  | some addr =>
    if !is_from_region cfg addr then
      (.error .foreignPointer, s)
    else
      match index_from_ptr cfg addr with
      | .error e => (.error e, s)
      | .ok idx =>
        if s.occupancy.getD idx 0 == 0 then
          (.error .doubleFree, s)
        else
          (.ok (),
           { free_list := some addr
             links := s.links.set idx s.free_list
             free_count := s.free_count + 1
             occupancy := s.occupancy.set idx (s.occupancy.getD idx 0 - 1) })

/-- `BlockAllocator::free_blocks`: returns `free_count_`. -/
def free_blocks (s : AllocState) : Nat := s.free_count

/-- Address of the start of slot `i`: `region_ + i * stride_`. -/
def slotAddr (cfg : Config) (i : Nat) : Nat := cfg.region + i * cfg.stride

/-- `chainFrom cfg links h L`: starting from head pointer `h` and repeatedly
following the `next` pointers embedded in the region one traverses exactly the
slots with indices `L`, in order, and ends at null.  The existence of such a
finite `L` is acyclicity of the free-list. -/
def chainFrom (cfg : Config) (links : List (Option Nat)) : Option Nat → List Nat → Prop
  | h, [] => h = none
  | h, i :: rest =>
      i < cfg.block_count ∧ h = some (slotAddr cfg i) ∧
      chainFrom cfg links (links.getD i none) rest

/-- The allocator invariant: the bookkeeping lists have one entry per slot, and
there is a duplicate-free chain `L` of free slot indices threaded from the
free-list head whose length is the tracked free count, such that the occupancy
byte of slot `i` is `0` exactly when `i` is on the chain (and `1` otherwise). -/
def Inv (cfg : Config) (s : AllocState) : Prop :=
  s.links.length = cfg.block_count ∧
  s.occupancy.length = cfg.block_count ∧
  ∃ L : List Nat,
    chainFrom cfg s.links s.free_list L ∧ L.Nodup ∧
    L.length = s.free_count ∧
    ∀ i < cfg.block_count, s.occupancy.getD i 0 = if i ∈ L then 0 else 1

/-- States reachable by a successful construction followed by any sequence of
successful `allocate`/`deallocate` calls.  Failing calls return with the state
unchanged (see `c7_strong_error_safety`), so they do not add states. -/
inductive Reachable : Config → AllocState → Prop where
  | init (bs n al R : Nat) (cfg : Config) (s : AllocState) :
      mkAllocator bs n al R = .ok (cfg, s) → Reachable cfg s
  | alloc (cfg : Config) (s : AllocState) (p : Nat) (s₂ : AllocState) :
      Reachable cfg s → allocate cfg s = (.ok p, s₂) → Reachable cfg s₂
  | dealloc (cfg : Config) (s : AllocState) (p : Option Nat) (s₂ : AllocState) :
      Reachable cfg s → deallocate cfg s p = (.ok (), s₂) → Reachable cfg s₂

/-- The configuration facts guaranteed by a successful construction. -/
def WF (cfg : Config) : Prop :=
  0 < cfg.block_size ∧ 0 < cfg.block_count ∧
  is_power_of_two cfg.alignment = true ∧ PTR_ALIGN ≤ cfg.alignment ∧
  cfg.stride = round_up (max cfg.block_size FREENODE_SIZE) cfg.alignment ∧
  cfg.stride ≤ (USIZE - 1) / cfg.block_count ∧
  cfg.region ≠ 0

/-- Run `k` consecutive `allocate` calls, `none` if any of them fails. -/
def allocSeq (cfg : Config) : Nat → AllocState → Option AllocState
  | 0, s => some s
  | k + 1, s =>
    match allocate cfg s with
    | (.ok _, s₂) => allocSeq cfg k s₂
    | (.error _, _) => none

/-- The addresses returned by `k` consecutive `allocate` calls, `none` if any
of them fails. -/
def allocAddrs (cfg : Config) : Nat → AllocState → Option (List Nat)
  | 0, _ => some []
  | k + 1, s =>
    match allocate cfg s with
    | (.ok p, s₂) => (allocAddrs cfg k s₂).map (fun l => p :: l)
    | (.error _, _) => none

/-- One public mutating call: an `allocate`, or a `deallocate` of pointer `p`. -/
inductive Op where
  | alloc : Op
  | dealloc : Option Nat → Op
deriving Repr, DecidableEq

/-- Run a sequence of calls, `none` if any of them fails. -/
def runOps (cfg : Config) : List Op → AllocState → Option AllocState
  | [], s => some s
  | .alloc :: ops, s =>
    match allocate cfg s with
    | (.ok _, s₂) => runOps cfg ops s₂
    | (.error _, _) => none
  | .dealloc p :: ops, s =>
    match deallocate cfg s p with
    | (.ok _, s₂) => runOps cfg ops s₂
    | (.error _, _) => none

/-- Number of `allocate` calls in a sequence. -/
def countAlloc : List Op → Nat
  | [] => 0
  | .alloc :: ops => countAlloc ops + 1
  | .dealloc _ :: ops => countAlloc ops

/-- Number of non-null `deallocate` calls in a sequence (a null `deallocate`
is a no-op, not a release). -/
def countRelease : List Op → Nat
  | [] => 0
  | .alloc :: ops => countRelease ops
  | .dealloc none :: ops => countRelease ops
  | .dealloc (some _) :: ops => countRelease ops + 1

/-- Example configuration produced by `mkAllocator 16 2 8 16`. -/
def cfgEx : Config := ⟨16, 2, 8, 16, 16⟩

/-- Example initial state produced by `mkAllocator 16 2 8 16`. -/
def stEx : AllocState := ⟨some 32, [none, some 16], 2, [0, 0]⟩

/-- Example configuration produced by `mkAllocator 24 4 64 64`
(`block_size = 24`, `alignment = 64`, so `stride = 64`). -/
def cfgEx2 : Config := ⟨24, 4, 64, 64, 64⟩

/-- Example initial state produced by `mkAllocator 24 4 64 64`. -/
def stEx2 : AllocState := ⟨some 256, [none, some 64, some 128, some 192], 4, [0, 0, 0, 0]⟩

/-- Example fully-allocated state for `cfgEx` (both slots handed out). -/
def stExFull : AllocState := ⟨none, [none, some 16], 0, [1, 1]⟩

/-- The state of `cfgEx`'s pool after one `allocate` from `stEx` (slot 1,
address 32, handed out). -/
def stEx1 : AllocState := ⟨some 16, [none, some 16], 1, [0, 1]⟩

end BlockAlloc

namespace BlockAlloc

/-! ### Bit-level groundwork for `round_up` and `is_power_of_two` -/

theorem land_eq_and (x y : Nat) : Nat.land x y = x &&& y := rfl

/-- Clearing the low `k` bits of a 64-bit value rounds it down to a multiple
of `2 ^ k`. -/
theorem land_clear_low (k x : Nat) (hk : k ≤ 64) (hx : x < 2 ^ 64) :
    Nat.land x (2 ^ 64 - 2 ^ k) = 2 ^ k * (x / 2 ^ k) := by
  have hmask : 2 ^ 64 - 2 ^ k = (2 ^ (64 - k) - 1) <<< k := by
    rw [Nat.shiftLeft_eq, Nat.sub_mul, one_mul, ← pow_add, Nat.sub_add_cancel hk]
  have hrhs : 2 ^ k * (x / 2 ^ k) = (x >>> k) <<< k := by
    rw [Nat.shiftRight_eq_div_pow, Nat.shiftLeft_eq, Nat.mul_comm]
  rw [land_eq_and, hmask, hrhs]
  apply Nat.eq_of_testBit_eq
  intro i
  rw [Nat.testBit_and, Nat.testBit_shiftLeft, Nat.testBit_shiftLeft, Nat.testBit_shiftRight,
    Nat.testBit_two_pow_sub_one]
  by_cases hik : k ≤ i
  · have h1 : k + (i - k) = i := by omega
    by_cases hi64 : i < 64
    · have h2 : i - k < 64 - k := by omega
      simp [hik, h1, h2, ge_iff_le]
    · have hxf : x.testBit i = false :=
        Nat.testBit_lt_two_pow
          (lt_of_lt_of_le hx (Nat.pow_le_pow_right (by norm_num) (by omega)))
      have h2 : ¬ i - k < 64 - k := by omega
      simp [hik, h1, h2, hxf, ge_iff_le]
  · simp [hik, ge_iff_le]

theorem land_odd_even (m : Nat) : Nat.land (2 * m + 1) (2 * m) = 2 * m := by
  rw [land_eq_and]
  apply Nat.eq_of_testBit_eq
  intro i
  rw [Nat.testBit_and]
  cases i with
  | zero =>
    have h1 : 2 * m % 2 = 0 := Nat.mul_mod_right 2 m
    simp [Nat.testBit_zero, h1]
  | succ j =>
    have h1 : (2 * m + 1) / 2 = m := by omega
    have h2 : 2 * m / 2 = m := by omega
    rw [Nat.testBit_succ, Nat.testBit_succ, h1, h2, Bool.and_self]

theorem land_even_pred (m : Nat) (hm : 0 < m) :
    Nat.land (2 * m) (2 * m - 1) = 2 * Nat.land m (m - 1) := by
  rw [land_eq_and, land_eq_and]
  apply Nat.eq_of_testBit_eq
  intro i
  rw [Nat.testBit_and]
  cases i with
  | zero =>
    have h1 : 2 * m % 2 = 0 := Nat.mul_mod_right 2 m
    have h2 : 2 * (m &&& (m - 1)) % 2 = 0 := Nat.mul_mod_right 2 _
    simp [Nat.testBit_zero, h1, h2]
  | succ j =>
    have h1 : 2 * m / 2 = m := by omega
    have h2 : (2 * m - 1) / 2 = m - 1 := by omega
    have h3 : 2 * (m &&& (m - 1)) / 2 = m &&& (m - 1) := by omega
    rw [Nat.testBit_succ, Nat.testBit_succ, h1, h2, Nat.testBit_succ, h3]
    exact (Nat.testBit_and m (m - 1) j).symm

theorem exists_pow_of_land_pred (x : Nat) (hx : x ≠ 0) (h : Nat.land x (x - 1) = 0) :
    ∃ k, x = 2 ^ k := by
  induction x using Nat.strongRecOn with
  | ind x ih =>
    rcases Nat.even_or_odd x with he | ho
    · obtain ⟨m, hm⟩ := he
      have hm2 : x = 2 * m := by omega
      have hm0 : m ≠ 0 := by omega
      rw [hm2] at h
      rw [land_even_pred m (by omega)] at h
      have hl : Nat.land m (m - 1) = 0 := by omega
      obtain ⟨k, hk⟩ := ih m (by omega) hm0 hl
      exact ⟨k + 1, by rw [hm2, hk, pow_succ, Nat.mul_comm]⟩
    · obtain ⟨m, hm⟩ := ho
      rcases Nat.eq_zero_or_pos m with hm0 | hm0
      · exact ⟨0, by omega⟩
      · exfalso
        rw [hm] at h
        have : (2 * m + 1) - 1 = 2 * m := by omega
        rw [this, land_odd_even] at h
        omega

/-- The constructor's power-of-two test is sound: a passing alignment is a
power of two. -/
theorem is_power_of_two_spec (x : Nat) (h : is_power_of_two x = true) :
    ∃ k, x = 2 ^ k := by
  unfold is_power_of_two at h
  rw [Bool.and_eq_true, bne_iff_ne, beq_iff_eq] at h
  exact exists_pow_of_land_pred x h.1 h.2

/-- `round_up` at a power-of-two alignment that fits in `std::size_t` is the
round-down of the (wrapped) sum `value + align - 1` to a multiple of the
alignment. -/
theorem round_up_pow2 (v k : Nat) (hk : k ≤ 64) :
    round_up v (2 ^ k) = 2 ^ k * ((v + (2 ^ k - 1)) % USIZE / 2 ^ k) := by
  have hk1 : (0:Nat) < 2 ^ k := Nat.two_pow_pos k
  have hkle : 2 ^ k ≤ 2 ^ 64 := Nat.pow_le_pow_right (by norm_num) hk
  have h64 : (0:Nat) < 2 ^ 64 := Nat.two_pow_pos 64
  have hmask : (2 ^ k + (USIZE - 1)) % USIZE = 2 ^ k - 1 := by
    unfold USIZE
    have he : 2 ^ k + (2 ^ 64 - 1) = (2 ^ k - 1) + 2 ^ 64 := by omega
    rw [he, Nat.add_mod_right, Nat.mod_eq_of_lt (by omega)]
  have hsub : USIZE - 1 - (2 ^ k - 1) = 2 ^ 64 - 2 ^ k := by
    unfold USIZE; omega
  simp only [round_up, hmask, hsub]
  exact land_clear_low k _ hk (Nat.mod_lt _ h64)

/-- The stride is always a multiple of a power-of-two alignment, even when the
rounding wraps. -/
theorem dvd_round_up_pow2 (v k : Nat) (hk : k ≤ 64) : 2 ^ k ∣ round_up v (2 ^ k) := by
  rw [round_up_pow2 v k hk]
  exact Dvd.intro _ rfl

/-- When the sum `value + align - 1` does not overflow, `round_up` rounds up:
the result is at least `value`. -/
theorem round_up_ge (v k : Nat) (hk : k ≤ 64) (hv : v + (2 ^ k - 1) < USIZE) :
    v ≤ round_up v (2 ^ k) := by
  have hk1 : (0:Nat) < 2 ^ k := Nat.two_pow_pos k
  rw [round_up_pow2 v k hk, Nat.mod_eq_of_lt hv]
  have hdm := Nat.div_add_mod (v + (2 ^ k - 1)) (2 ^ k)
  have hlt : (v + (2 ^ k - 1)) % 2 ^ k < 2 ^ k := Nat.mod_lt _ hk1
  omega

/-! ### The constructor -/

/-- Unpacking a successful construction: the guards all passed and the
resulting configuration and state are the computed ones. -/
theorem mkAllocator_ok (bs n al R : Nat) (cfg : Config) (s : AllocState)
    (h : mkAllocator bs n al R = .ok (cfg, s)) :
    cfg = ⟨bs, n, al, round_up (max bs FREENODE_SIZE) al, R⟩ ∧
    s = ⟨(buildFreeList R (round_up (max bs FREENODE_SIZE) al) n).1,
         (buildFreeList R (round_up (max bs FREENODE_SIZE) al) n).2, n,
         List.replicate n 0⟩ ∧
    bs ≠ 0 ∧ n ≠ 0 ∧ is_power_of_two al = true ∧ ¬ al < PTR_ALIGN ∧
    round_up (max bs FREENODE_SIZE) al ≤ (USIZE - 1) / n ∧ R ≠ 0 := by
  simp only [mkAllocator] at h
  split at h
  · exact absurd h (by simp)
  · split at h
    · exact absurd h (by simp)
    · split at h
      · exact absurd h (by simp)
      · split at h
        · exact absurd h (by simp)
        · rename_i h1 h2 h3 h4
          simp only [Except.ok.injEq, Prod.mk.injEq] at h
          simp only [Bool.or_eq_true, beq_iff_eq, not_or] at h1
          simp only [Bool.or_eq_true, Bool.not_eq_eq_eq_not, Bool.not_true,
            decide_eq_false_iff_not, not_or, not_not] at h2
          simp only [gt_iff_lt, not_lt] at h3
          simp only [beq_iff_eq] at h4
          refine ⟨h.1.symm, h.2.symm, h1.1, h1.2, ?_, ?_, h3, h4⟩
          · simpa using h2.1
          · simpa using h2.2

/-- Successful construction yields a well-formed configuration. -/
theorem mkAllocator_wf (bs n al R : Nat) (cfg : Config) (s : AllocState)
    (h : mkAllocator bs n al R = .ok (cfg, s)) : WF cfg := by
  obtain ⟨hcfg, _, hbs, hn, hpow, hal, hov, hR⟩ := mkAllocator_ok bs n al R cfg s h
  subst hcfg
  refine ⟨?_, ?_, hpow, ?_, rfl, hov, hR⟩
  · show 0 < bs
    omega
  · show 0 < n
    omega
  · show PTR_ALIGN ≤ al
    omega

/-- Reachability never changes the configuration, so every reachable state's
configuration is well-formed. -/
theorem reachable_wf (cfg : Config) (s : AllocState) (h : Reachable cfg s) : WF cfg := by
  induction h with
  | init bs n al R cfg s hmk => exact mkAllocator_wf bs n al R cfg s hmk
  | alloc cfg s p s₂ _ _ ih => exact ih
  | dealloc cfg s p s₂ _ _ ih => exact ih

/-- Closed form of the constructor loop: the head points at the last slot and
slot `i` stores a pointer to slot `i - 1` (null for slot 0). -/
theorem buildFreeList_eq (region stride : Nat) (n : Nat) :
    buildFreeList region stride n =
      (if n = 0 then none else some (region + (n - 1) * stride),
       (List.range n).map
         (fun i => if i = 0 then none else some (region + (i - 1) * stride))) := by
  induction n with
  | zero => rfl
  | succ m ih =>
    simp only [buildFreeList, List.range_succ, List.foldl_append, List.foldl_cons,
      List.foldl_nil] at *
    rw [ih]
    simp only [Nat.succ_ne_zero, if_false, Nat.add_sub_cancel, List.map_append,
      List.map_cons, List.map_nil, Prod.mk.injEq, true_and]

/-! ### The free-list chain and the allocator invariant -/

/-- Recover the slot index from a slot address (the `(addr - region_) / stride_`
computation of the source). -/
theorem slotAddr_idx (cfg : Config) (hst : 0 < cfg.stride) (i : Nat) :
    (slotAddr cfg i - cfg.region) / cfg.stride = i := by
  unfold slotAddr
  rw [Nat.add_sub_cancel_left, Nat.mul_div_cancel i hst]

theorem chainFrom_mem_lt (cfg : Config) (links : List (Option Nat)) (h : Option Nat)
    (L : List Nat) (hc : chainFrom cfg links h L) : ∀ j ∈ L, j < cfg.block_count := by
  induction L generalizing h with
  | nil =>
    intro j hj
    cases hj
  | cons i rest ih =>
    intro j hj
    obtain ⟨h1, _, h3⟩ := hc
    rcases List.mem_cons.mp hj with rfl | hj2
    · exact h1
    · exact ih _ h3 j hj2

/-- A chain only reads the links of the slots it visits, so it survives any
update of other slots' links. -/
theorem chainFrom_links_congr (cfg : Config) (links links₂ : List (Option Nat))
    (h : Option Nat) (L : List Nat)
    (hag : ∀ i ∈ L, links₂.getD i none = links.getD i none)
    (hc : chainFrom cfg links h L) : chainFrom cfg links₂ h L := by
  induction L generalizing h with
  | nil => exact hc
  | cons i rest ih =>
    obtain ⟨h1, h2, h3⟩ := hc
    refine ⟨h1, h2, ?_⟩
    rw [hag i (List.mem_cons_self i rest)]
    exact ih _ (fun j hj => hag j (List.mem_cons_of_mem i hj)) h3

theorem getD_set_self {α : Type} (l : List α) (i : Nat) (a d : α) (hi : i < l.length) :
    (l.set i a).getD i d = a := by
  simp [List.getD_eq_getElem?_getD, List.getElem?_set_self hi]

theorem getD_set_ne {α : Type} (l : List α) (i j : Nat) (a d : α) (hij : i ≠ j) :
    (l.set i a).getD j d = l.getD j d := by
  simp [List.getD_eq_getElem?_getD, List.getElem?_set_ne hij]

/-- A successful `allocate` pops the head of the chain: it preserves the
invariant, returns the address of a slot, and decrements the free count by
exactly one. -/
theorem allocate_ok_inv (cfg : Config) (s : AllocState) (p : Nat) (s₂ : AllocState)
    (hst : 0 < cfg.stride) (hinv : Inv cfg s)
    (h : allocate cfg s = (.ok p, s₂)) :
    Inv cfg s₂ ∧ (∃ i, i < cfg.block_count ∧ p = slotAddr cfg i) ∧
      s₂.free_count + 1 = s.free_count := by
  obtain ⟨hll, hol, L, hc, hnd, hlen, hocc⟩ := hinv
  cases L with
  | nil =>
    have hfl : s.free_list = none := hc
    simp [allocate, hfl] at h
  | cons i L2 =>
    obtain ⟨hi, hfl, hrest⟩ := (hc :
      i < cfg.block_count ∧ s.free_list = some (slotAddr cfg i) ∧
        chainFrom cfg s.links (s.links.getD i none) L2)
    have hidx : (slotAddr cfg i - cfg.region) / cfg.stride = i := slotAddr_idx cfg hst i
    simp only [allocate, hfl, hidx, Prod.mk.injEq, Except.ok.injEq] at h
    obtain ⟨hp, hs2⟩ := h
    subst hp
    subst hs2
    have hlen2 : L2.length + 1 = s.free_count := by
      simpa using hlen
    refine ⟨⟨hll, by simpa using hol, L2, hrest, (List.nodup_cons.mp hnd).2, ?_, ?_⟩,
      ⟨i, hi, rfl⟩, ?_⟩
    · show L2.length = s.free_count - 1
      omega
    · intro j hj
      by_cases hji : j = i
      · subst hji
        have hjl : j < s.occupancy.length := hol ▸ hi
        rw [getD_set_self s.occupancy j 1 0 hjl]
        rw [if_neg (List.nodup_cons.mp hnd).1]
      · rw [getD_set_ne s.occupancy i j 1 0 (fun he => hji he.symm)]
        rw [hocc j hj]
        by_cases hjm : j ∈ L2
        · rw [if_pos (List.mem_cons_of_mem i hjm), if_pos hjm]
        · rw [if_neg (fun hm => hjm ((List.mem_cons.mp hm).resolve_left hji)), if_neg hjm]
    · show s.free_count - 1 + 1 = s.free_count
      omega

theorem is_from_region_spec (cfg : Config) (a : Nat) :
    is_from_region cfg a = true ↔
      cfg.region ≤ a ∧ a < cfg.region + cfg.stride * cfg.block_count ∧
      (a - cfg.region) % cfg.stride = 0 := by
  simp [is_from_region, Bool.and_eq_true, and_assoc]

/-- `index_from_ptr_unlocked` never throws once `is_from_region_unlocked` has
accepted the pointer (its two `throw` statements are dead in `deallocate`). -/
theorem index_from_ptr_of_from_region (cfg : Config) (a : Nat)
    (h : is_from_region cfg a = true) :
    index_from_ptr cfg a = .ok ((a - cfg.region) / cfg.stride) := by
  obtain ⟨h1, h2, h3⟩ := (is_from_region_spec cfg a).mp h
  simp [index_from_ptr, h1, h2, h3]

/-- Unpacking a successful non-null `deallocate`: the pointer passed both
checks and the state was updated as the source writes it. -/
theorem deallocate_some_ok (cfg : Config) (s : AllocState) (a : Nat) (s₂ : AllocState)
    (h : deallocate cfg s (some a) = (.ok (), s₂)) :
    is_from_region cfg a = true ∧
    s.occupancy.getD ((a - cfg.region) / cfg.stride) 0 ≠ 0 ∧
    s₂ = ⟨some a, s.links.set ((a - cfg.region) / cfg.stride) s.free_list,
          s.free_count + 1,
          s.occupancy.set ((a - cfg.region) / cfg.stride)
            (s.occupancy.getD ((a - cfg.region) / cfg.stride) 0 - 1)⟩ := by
  by_cases hr : is_from_region cfg a
  · have hidx := index_from_ptr_of_from_region cfg a hr
    simp only [deallocate, hr, Bool.not_true, Bool.false_eq_true, if_false, hidx] at h
    by_cases hz : s.occupancy.getD ((a - cfg.region) / cfg.stride) 0 = 0
    · rw [if_pos (by simpa [List.getD_eq_getElem?_getD] using hz)] at h
      exact absurd h (by simp)
    · rw [if_neg (by simpa [List.getD_eq_getElem?_getD] using hz)] at h
      rw [Prod.mk.injEq] at h
      refine ⟨hr, hz, ?_⟩
      rw [← h.2]
  · simp [deallocate, hr] at h

/-- A successful non-null `deallocate` pushes the released slot onto the
chain: it preserves the invariant and increments the free count by exactly
one. -/
theorem deallocate_ok_inv (cfg : Config) (s : AllocState) (a : Nat) (s₂ : AllocState)
    (hst : 0 < cfg.stride) (hinv : Inv cfg s)
    (h : deallocate cfg s (some a) = (.ok (), s₂)) :
    Inv cfg s₂ ∧ s₂.free_count = s.free_count + 1 := by
  obtain ⟨hll, hol, L, hc, hnd, hlen, hocc⟩ := hinv
  obtain ⟨hr, hz, hs2⟩ := deallocate_some_ok cfg s a s₂ h
  obtain ⟨h1, h2, h3⟩ := (is_from_region_spec cfg a).mp hr
  have hd : (a - cfg.region) / cfg.stride * cfg.stride = a - cfg.region :=
    Nat.div_mul_cancel (Nat.dvd_of_mod_eq_zero h3)
  have ha : a = slotAddr cfg ((a - cfg.region) / cfg.stride) := by
    unfold slotAddr
    omega
  have hidxlt : (a - cfg.region) / cfg.stride < cfg.block_count := by
    rw [Nat.div_lt_iff_lt_mul hst, Nat.mul_comm]
    omega
  have hnotmem : (a - cfg.region) / cfg.stride ∉ L := by
    intro hmem
    have := hocc _ hidxlt
    rw [if_pos hmem] at this
    exact hz this
  have hocc1 : s.occupancy.getD ((a - cfg.region) / cfg.stride) 0 = 1 := by
    have := hocc _ hidxlt
    rwa [if_neg hnotmem] at this
  subst hs2
  refine ⟨⟨by simpa using hll, by simpa using hol,
    ((a - cfg.region) / cfg.stride) :: L, ⟨hidxlt, by rw [← ha], ?_⟩, ?_, ?_, ?_⟩, rfl⟩
  · rw [getD_set_self s.links _ s.free_list none (hll ▸ hidxlt)]
    refine chainFrom_links_congr cfg s.links _ s.free_list L (fun j hj => ?_) hc
    exact getD_set_ne s.links _ j s.free_list none (fun he => hnotmem (he ▸ hj))
  · exact List.nodup_cons.mpr ⟨hnotmem, hnd⟩
  · simpa using hlen
  · intro j hj
    rw [hocc1]
    by_cases hji : j = (a - cfg.region) / cfg.stride
    · rw [hji]
      rw [getD_set_self s.occupancy _ (1 - 1) 0 (hol ▸ hidxlt)]
      rw [if_pos (List.mem_cons_self _ L)]
    · rw [getD_set_ne s.occupancy _ j (1 - 1) 0 (fun he => hji he.symm)]
      rw [hocc j hj]
      by_cases hjm : j ∈ L
      · rw [if_pos (List.mem_cons_of_mem _ hjm), if_pos hjm]
      · rw [if_neg (fun hm => hjm ((List.mem_cons.mp hm).resolve_left hji)), if_neg hjm]

/-- Deallocating a null pointer is a silent no-op, before the lock is even
taken. -/
theorem deallocate_none (cfg : Config) (s : AllocState) :
    deallocate cfg s none = (.ok (), s) := rfl

/-- The chain through the freshly built free-list visits the slots in
descending index order. -/
theorem chainFrom_init (cfg : Config) (links : List (Option Nat))
    (hlinks : links = (List.range cfg.block_count).map
      (fun i => if i = 0 then none else some (slotAddr cfg (i - 1))))
    (j : Nat) (hj : j ≤ cfg.block_count) :
    chainFrom cfg links (if j = 0 then none else some (slotAddr cfg (j - 1)))
      (List.range j).reverse := by
  induction j with
  | zero => exact rfl
  | succ m ih =>
    rw [List.range_succ, List.reverse_append]
    have hmlt : m < cfg.block_count := by omega
    have hget : links.getD m none = if m = 0 then none else some (slotAddr cfg (m - 1)) := by
      rw [hlinks]
      simp [List.getD_eq_getElem?_getD, List.getElem?_map, List.getElem?_range hmlt]
    refine ⟨hmlt, by simp, ?_⟩
    rw [hget]
    exact ih (by omega)

/-- A successful construction establishes the invariant, with the chain being
the slot indices in descending order. -/
theorem mkAllocator_inv (bs n al R : Nat) (cfg : Config) (s : AllocState)
    (h : mkAllocator bs n al R = .ok (cfg, s)) : Inv cfg s := by
  obtain ⟨hcfg, hs, hbs, hn, _, _, _, hR⟩ := mkAllocator_ok bs n al R cfg s h
  subst hcfg
  subst hs
  rw [buildFreeList_eq]
  refine ⟨by simp, by simp, (List.range n).reverse, ?_,
    List.nodup_reverse.mpr (List.nodup_range n), by simp, ?_⟩
  · exact chainFrom_init _ _ rfl n (le_refl n)
  · intro j hj
    have hjm : j ∈ (List.range n).reverse := by simpa using hj
    simp [List.getD_eq_getElem?_getD, List.getElem?_replicate, hj, hjm]

/-- C1 core: the invariant holds in every reachable state (of a pool whose
stride is nonzero; a zero stride makes `allocate` divide by zero, which is
undefined behaviour in the source). -/
theorem reachable_inv (cfg : Config) (s : AllocState)
    (h : Reachable cfg s) (hst : 0 < cfg.stride) : Inv cfg s := by
  induction h with
  | init bs n al R cfg s hmk => exact mkAllocator_inv bs n al R cfg s hmk
  | alloc cfg s p s₂ _ hstep ih => exact (allocate_ok_inv cfg s p s₂ hst (ih hst) hstep).1
  | dealloc cfg s p s₂ _ hstep ih =>
    cases p with
    | none =>
      rw [deallocate_none] at hstep
      rw [Prod.mk.injEq] at hstep
      rw [← hstep.2]
      exact ih hst
    | some a => exact (deallocate_ok_inv cfg s a s₂ hst (ih hst) hstep).1

/-! ### Derived facts about sequences of operations -/

/-- With a nonzero free count, `allocate` succeeds. -/
theorem allocate_progress (cfg : Config) (s : AllocState)
    (hinv : Inv cfg s) (hfc : 0 < s.free_count) :
    ∃ p s₂, allocate cfg s = (.ok p, s₂) := by
  obtain ⟨_, _, L, hc, _, hlen, _⟩ := hinv
  cases L with
  | nil =>
    rw [← hlen] at hfc
    exact absurd hfc (by simp)
  | cons i L2 =>
    obtain ⟨_, hfl, _⟩ := (hc :
      i < cfg.block_count ∧ s.free_list = some (slotAddr cfg i) ∧
        chainFrom cfg s.links (s.links.getD i none) L2)
    exact ⟨slotAddr cfg i,
      ⟨s.links.getD ((slotAddr cfg i - cfg.region) / cfg.stride) none, s.links,
        s.free_count - 1, s.occupancy.set ((slotAddr cfg i - cfg.region) / cfg.stride) 1⟩,
      by simp only [allocate, hfl]⟩

/-- With a zero free count, `allocate` throws `std::bad_alloc` and leaves the
state untouched. -/
theorem allocate_empty (cfg : Config) (s : AllocState)
    (hinv : Inv cfg s) (hfc : s.free_count = 0) :
    allocate cfg s = (.error .badAlloc, s) := by
  obtain ⟨_, _, L, hc, _, hlen, _⟩ := hinv
  cases L with
  | cons i L2 =>
    rw [hfc] at hlen
    exact absurd hlen (by simp)
  | nil =>
    have hfl : s.free_list = none := hc
    simp [allocate, hfl]

/-- As long as the free count covers them, consecutive `allocate` calls all
succeed, preserve the invariant, and lower the free count accordingly. -/
theorem allocSeq_progress (cfg : Config) (k : Nat) (s : AllocState)
    (hst : 0 < cfg.stride) (hinv : Inv cfg s) (hk : k ≤ s.free_count) :
    ∃ s₂, allocSeq cfg k s = some s₂ ∧ Inv cfg s₂ ∧
      s₂.free_count = s.free_count - k := by
  induction k generalizing s with
  | zero => exact ⟨s, rfl, hinv, by omega⟩
  | succ m ih =>
    obtain ⟨p, s₁, hstep⟩ := allocate_progress cfg s hinv (by omega)
    obtain ⟨hinv₁, _, hfc₁⟩ := allocate_ok_inv cfg s p s₁ hst hinv hstep
    obtain ⟨s₂, hseq, hinv₂, hfc₂⟩ := ih s₁ hinv₁ (by omega)
    refine ⟨s₂, ?_, hinv₂, by omega⟩
    simp only [allocSeq, hstep]
    exact hseq

/-- The slot just released by a successful non-null `deallocate` is the one
the next `allocate` hands out (the free-list is LIFO). -/
theorem dealloc_alloc_lifo (cfg : Config) (s : AllocState) (a : Nat) (s₂ : AllocState)
    (h : deallocate cfg s (some a) = (.ok (), s₂)) :
    ∃ s₃, allocate cfg s₂ = (.ok a, s₃) := by
  obtain ⟨_, _, hs2⟩ := deallocate_some_ok cfg s a s₂ h
  subst hs2
  exact ⟨_, rfl⟩

/-- Free-count bookkeeping over any successful sequence of calls: each
`allocate` takes one block, each non-null `deallocate` returns one. -/
theorem runOps_conservation (cfg : Config) (ops : List Op) (s s₂ : AllocState)
    (hst : 0 < cfg.stride) (hinv : Inv cfg s)
    (h : runOps cfg ops s = some s₂) :
    s₂.free_count + countAlloc ops = s.free_count + countRelease ops ∧ Inv cfg s₂ := by
  induction ops generalizing s with
  | nil =>
    simp only [runOps, Option.some.injEq] at h
    subst h
    exact ⟨rfl, hinv⟩
  | cons op rest ih =>
    cases op with
    | alloc =>
      rcases hstep : allocate cfg s with ⟨r, s₁⟩
      simp only [runOps, hstep] at h
      cases r with
      | error e => exact absurd h (by simp)
      | ok p =>
        obtain ⟨hinv₁, _, hfc⟩ := allocate_ok_inv cfg s p s₁ hst hinv hstep
        obtain ⟨hcons, hinv₂⟩ := ih s₁ hinv₁ h
        refine ⟨?_, hinv₂⟩
        simp only [countAlloc, countRelease]
        omega
    | dealloc p =>
      cases p with
      | none =>
        rw [show runOps cfg (Op.dealloc none :: rest) s = runOps cfg rest s from rfl] at h
        obtain ⟨hcons, hinv₂⟩ := ih s hinv h
        exact ⟨by simpa [countAlloc, countRelease] using hcons, hinv₂⟩
      | some a =>
        rcases hstep : deallocate cfg s (some a) with ⟨r, s₁⟩
        simp only [runOps, hstep] at h
        cases r with
        | error e => exact absurd h (by simp)
        | ok u =>
          obtain ⟨hinv₁, hfc⟩ := deallocate_ok_inv cfg s a s₁ hst hinv hstep
          obtain ⟨hcons, hinv₂⟩ := ih s₁ hinv₁ h
          refine ⟨?_, hinv₂⟩
          simp only [countAlloc, countRelease]
          omega

/-- Consecutive `allocate` calls walk the chain: the returned addresses are
the chain's slots, in order. -/
theorem allocAddrs_of_chain (cfg : Config) (L : List Nat) (s : AllocState)
    (hst : 0 < cfg.stride)
    (hc : chainFrom cfg s.links s.free_list L) :
    allocAddrs cfg L.length s = some (L.map (slotAddr cfg)) := by
  induction L generalizing s with
  | nil => rfl
  | cons i L2 ih =>
    obtain ⟨hi, hfl, hrest⟩ := (hc :
      i < cfg.block_count ∧ s.free_list = some (slotAddr cfg i) ∧
        chainFrom cfg s.links (s.links.getD i none) L2)
    have hidx := slotAddr_idx cfg hst i
    have hstep : allocate cfg s = (.ok (slotAddr cfg i),
        ⟨s.links.getD i none, s.links, s.free_count - 1, s.occupancy.set i 1⟩) := by
      simp [allocate, hfl, hidx]
    simp only [List.length_cons, allocAddrs, hstep, List.map_cons]
    rw [ih ⟨s.links.getD i none, s.links, s.free_count - 1, s.occupancy.set i 1⟩ hrest]
    rfl

/-! ### The claims -/

/-- C1: in every reachable state the free-list is acyclic and contains each
free slot exactly once (it is traced by a finite duplicate-free chain of slot
indices ending at null), its length equals the tracked free-block count, and
the occupancy flag of slot `i` is `1` iff slot `i` is not reachable from the
free-list head.  States with `stride = 0` are excluded: there `allocate`
divides by zero, undefined behaviour in the source. -/
theorem c1_freelist_invariant (cfg : Config) (s : AllocState)
    (h : Reachable cfg s) (hst : 0 < cfg.stride) :
    ∃ L : List Nat,
      chainFrom cfg s.links s.free_list L ∧ L.Nodup ∧
      L.length = free_blocks s ∧
      ∀ i < cfg.block_count, (s.occupancy.getD i 0 = 1 ↔ i ∉ L) := by
  obtain ⟨_, _, L, hc, hnd, hlen, hocc⟩ := reachable_inv cfg s h hst
  refine ⟨L, hc, hnd, hlen, fun i hi => ?_⟩
  have hi2 := hocc i hi
  by_cases hm : i ∈ L
  · rw [if_pos hm] at hi2
    exact ⟨fun h1 => absurd (h1 ▸ hi2) (by simp), fun h2 => absurd hm h2⟩
  · rw [if_neg hm] at hi2
    exact ⟨fun _ => hm, fun _ => hi2⟩

/-- Witness for C1 at the pool built by `mkAllocator 16 2 8 16`. -/
theorem c1_freelist_invariant_witness :
    ∃ L : List Nat,
      chainFrom cfgEx stEx.links stEx.free_list L ∧ L.Nodup ∧
      L.length = free_blocks stEx ∧
      ∀ i < cfgEx.block_count, (stEx.occupancy.getD i 0 = 1 ↔ i ∉ L) :=
  c1_freelist_invariant cfgEx stEx
    (Reachable.init 16 2 8 16 cfgEx stEx (by rfl)) (by decide)

/-- C2: on a pool of `block_count = n`, `n` consecutive `allocate` calls all
succeed, the `(n+1)`-th fails with `std::bad_alloc` (the ResourceExhausted
error) without touching the state (so it neither blocks nor retries), and
after any one successful `deallocate` of a block the next `allocate` succeeds
again. -/
theorem c2_exhaustion (bs n al R : Nat) (cfg : Config) (s₀ : AllocState)
    (h : mkAllocator bs n al R = .ok (cfg, s₀)) (hst : 0 < cfg.stride) :
    ∃ sN, allocSeq cfg n s₀ = some sN ∧
      allocate cfg sN = (.error .badAlloc, sN) ∧
      ∀ a s₂, deallocate cfg sN (some a) = (.ok (), s₂) →
        ∃ q s₃, allocate cfg s₂ = (.ok q, s₃) := by
  have hinv₀ := mkAllocator_inv bs n al R cfg s₀ h
  have hfc₀ : s₀.free_count = n := by
    obtain ⟨_, hs, _⟩ := mkAllocator_ok bs n al R cfg s₀ h
    rw [hs]
  obtain ⟨sN, hseq, hinvN, hfcN⟩ := allocSeq_progress cfg n s₀ hst hinv₀ (by omega)
  refine ⟨sN, hseq, allocate_empty cfg sN hinvN (by omega), fun a s₂ hd => ?_⟩
  obtain ⟨s₃, ha⟩ := dealloc_alloc_lifo cfg sN a s₂ hd
  exact ⟨a, s₃, ha⟩

/-- Witness for C2 at the pool built by `mkAllocator 16 2 8 16`. -/
theorem c2_exhaustion_witness :
    ∃ sN, allocSeq cfgEx 2 stEx = some sN ∧
      allocate cfgEx sN = (.error .badAlloc, sN) ∧
      ∀ a s₂, deallocate cfgEx sN (some a) = (.ok (), s₂) →
        ∃ q s₃, allocate cfgEx s₂ = (.ok q, s₃) :=
  c2_exhaustion 16 2 8 16 cfgEx stEx (by rfl) (by decide)

/-- C3: `deallocate` validates in order: a null pointer is a silent no-op
(success, no state change); a pointer outside
`[region, region + stride * block_count)` or at an offset that is not a
multiple of `stride` fails with the foreign-pointer error; a pointer passing
that check whose occupancy flag is already clear fails with the double-free
error; otherwise the call succeeds. -/
theorem c3_deallocate_validation (cfg : Config) (s : AllocState) :
    deallocate cfg s none = (.ok (), s) ∧
    (∀ a, ¬ (cfg.region ≤ a ∧ a < cfg.region + cfg.stride * cfg.block_count ∧
             (a - cfg.region) % cfg.stride = 0) →
       deallocate cfg s (some a) = (.error .foreignPointer, s)) ∧
    (∀ a, (cfg.region ≤ a ∧ a < cfg.region + cfg.stride * cfg.block_count ∧
           (a - cfg.region) % cfg.stride = 0) →
       s.occupancy.getD ((a - cfg.region) / cfg.stride) 0 = 0 →
       deallocate cfg s (some a) = (.error .doubleFree, s)) ∧
    (∀ a, (cfg.region ≤ a ∧ a < cfg.region + cfg.stride * cfg.block_count ∧
           (a - cfg.region) % cfg.stride = 0) →
       s.occupancy.getD ((a - cfg.region) / cfg.stride) 0 ≠ 0 →
       (deallocate cfg s (some a)).1 = .ok ()) := by
  refine ⟨rfl, fun a hna => ?_, fun a hin hz => ?_, fun a hin hnz => ?_⟩
  · have hr : is_from_region cfg a = false := by
      rw [Bool.eq_false_iff, Ne, is_from_region_spec]
      exact hna
    simp [deallocate, hr]
  · have hr : is_from_region cfg a = true := (is_from_region_spec cfg a).mpr hin
    have hidx := index_from_ptr_of_from_region cfg a hr
    simp only [deallocate, hr, Bool.not_true, Bool.false_eq_true, if_false, hidx]
    rw [if_pos (by simpa [List.getD_eq_getElem?_getD] using hz)]
  · have hr : is_from_region cfg a = true := (is_from_region_spec cfg a).mpr hin
    have hidx := index_from_ptr_of_from_region cfg a hr
    simp only [deallocate, hr, Bool.not_true, Bool.false_eq_true, if_false, hidx]
    rw [if_neg (by simpa [List.getD_eq_getElem?_getD] using hnz)]

/-- Witness for C3: on `cfgEx`'s pool, a null release is a no-op; address 17
is inside the region but off-stride, so it is foreign; address 16 is a valid
slot that is already free in `stEx`, so releasing it is a double free; the
same address in the fully-allocated `stExFull` releases successfully. -/
theorem c3_deallocate_validation_witness :
    deallocate cfgEx stEx none = (.ok (), stEx) ∧
    deallocate cfgEx stEx (some 17) = (.error .foreignPointer, stEx) ∧
    deallocate cfgEx stEx (some 16) = (.error .doubleFree, stEx) ∧
    (deallocate cfgEx stExFull (some 16)).1 = .ok () :=
  ⟨(c3_deallocate_validation cfgEx stEx).1,
   (c3_deallocate_validation cfgEx stEx).2.1 17 (by decide),
   (c3_deallocate_validation cfgEx stEx).2.2.1 16 (by decide) (by decide),
   (c3_deallocate_validation cfgEx stExFull).2.2.2 16 (by decide) (by decide)⟩

/-- C4: every address handed out by a successful `allocate` on a reachable
pool is a multiple of the configured alignment (given the `posix_memalign`
guarantee that the region base is aligned, a nonzero stride, and an alignment
that is a genuine `std::size_t` value). -/
theorem c4_alignment (cfg : Config) (s : AllocState) (p : Nat) (s₂ : AllocState)
    (h : Reachable cfg s) (hal : cfg.region % cfg.alignment = 0)
    (hst : 0 < cfg.stride) (halu : cfg.alignment < USIZE)
    (hs : allocate cfg s = (.ok p, s₂)) :
    p % cfg.alignment = 0 := by
  obtain ⟨_, _, hpow, _, hstr, _, _⟩ := reachable_wf cfg s h
  obtain ⟨k, hk⟩ := is_power_of_two_spec _ hpow
  have hk64 : k ≤ 64 := by
    by_contra hgt
    push_neg at hgt
    have h1 : USIZE < 2 ^ k := Nat.pow_lt_pow_right (by norm_num) (by omega)
    rw [hk] at halu
    omega
  have hdvd : cfg.alignment ∣ cfg.stride := by
    rw [hstr, hk]
    exact dvd_round_up_pow2 _ k hk64
  obtain ⟨_, ⟨i, hi, hp⟩, _⟩ := allocate_ok_inv cfg s p s₂ hst (reachable_inv cfg s h hst) hs
  subst hp
  unfold slotAddr
  have hdvd2 : cfg.alignment ∣ cfg.region + i * cfg.stride :=
    Nat.dvd_add (Nat.dvd_of_mod_eq_zero hal) (Dvd.dvd.mul_left hdvd i)
  have hpos : 0 < cfg.alignment := by
    rw [hk]
    exact Nat.two_pow_pos k
  omega

/-- Witness for C4 at the non-trivial configuration `block_size = 24`,
`alignment = 64` (the pool built by `mkAllocator 24 4 64 64`): the first
allocation returns address 256, a multiple of 64. -/
theorem c4_alignment_witness : (256 : Nat) % cfgEx2.alignment = 0 :=
  c4_alignment cfgEx2 stEx2 256
    ⟨some 192, [none, some 64, some 128, some 192], 3, [0, 0, 0, 1]⟩
    (Reachable.init 24 4 64 64 cfgEx2 stEx2 (by rfl)) (by decide) (by decide)
    (by decide) (by rfl)

/-- C5 (bug exhibit): construction accepts `block_size = 2^64 - 7`,
`block_count = 1`, `alignment = 8` (given the memory system returns a nonzero
base, here 8, for the resulting zero-byte request), because the rounding
`(block_size + 7) & ~7` wraps around `std::size_t` to 0 — so the accepted
configuration has `stride = 0 < block_size`, violating the claimed
`stride >= block_size` invariant. -/
theorem c5_stride_overflow_bug :
    ∃ cfg s, mkAllocator (USIZE - 7) 1 8 8 = .ok (cfg, s) ∧
      cfg.stride = round_up (max cfg.block_size FREENODE_SIZE) cfg.alignment ∧
      cfg.stride = 0 ∧ cfg.stride < cfg.block_size :=
  ⟨⟨USIZE - 7, 1, 8, 0, 8⟩, ⟨some 8, [none], 1, [0]⟩, by rfl, by rfl, rfl, by decide⟩

/-- C6 (bug exhibit): with `block_size = 2^64 - 7`, `block_count = 1`,
`alignment = 8`, the stride-rounding step overflows `std::size_t`
(`max(block_size, 8) + alignment - 1 ≥ 2^64`), yet construction does not fail
with the InvalidConfiguration error: it succeeds (whenever the memory system
returns a nonzero base for the wrapped zero-byte request) with a region of
`stride * block_count = 0` bytes — smaller than the requested blocks. -/
theorem c6_overflow_not_rejected :
    ∃ cfg s, mkAllocator (USIZE - 7) 1 8 8 = .ok (cfg, s) ∧
      USIZE ≤ max (USIZE - 7) FREENODE_SIZE + (8 - 1) ∧
      cfg.stride * cfg.block_count = 0 ∧ 0 < cfg.block_size :=
  ⟨⟨USIZE - 7, 1, 8, 0, 8⟩, ⟨some 8, [none], 1, [0]⟩, by rfl, by decide, rfl, by decide⟩

/-- C7: a failing `allocate` or `deallocate` returns with the free-list,
occupancy table and free count exactly as they were: the member state at throw
time equals the state before the call. -/
theorem c7_strong_error_safety (cfg : Config) (s : AllocState) :
    (∀ e, (allocate cfg s).1 = .error e → (allocate cfg s).2 = s) ∧
    (∀ p e, (deallocate cfg s p).1 = .error e → (deallocate cfg s p).2 = s) := by
  constructor
  · intro e he
    cases hfl : s.free_list with
    | none => simp [allocate, hfl]
    | some a => simp [allocate, hfl] at he
  · intro p e he
    cases p with
    | none => rfl
    | some a =>
      by_cases hr : is_from_region cfg a
      · have hidx := index_from_ptr_of_from_region cfg a hr
        by_cases hz : s.occupancy.getD ((a - cfg.region) / cfg.stride) 0 = 0
        · simp only [deallocate, hr, Bool.not_true, Bool.false_eq_true, if_false, hidx]
          rw [if_pos (by simpa [List.getD_eq_getElem?_getD] using hz)]
        · simp only [deallocate, hr, Bool.not_true, Bool.false_eq_true, if_false, hidx] at he
          rw [if_neg (by simpa [List.getD_eq_getElem?_getD] using hz)] at he
          exact absurd he (by simp)
      · simp [deallocate, hr]

/-- Witness for C7: the exhausted pool's failing `allocate` and a foreign
pointer's failing `deallocate` both leave the state unchanged. -/
theorem c7_strong_error_safety_witness :
    (allocate cfgEx stExFull).2 = stExFull ∧
    (deallocate cfgEx stEx (some 17)).2 = stEx :=
  ⟨(c7_strong_error_safety cfgEx stExFull).1 .badAlloc (by rfl),
   (c7_strong_error_safety cfgEx stEx).2 (some 17) .foreignPointer (by rfl)⟩

/-- C8: right after construction `free_blocks()` equals `block_count`; each
successful `allocate` decrements it by exactly one; each successful non-null
`deallocate` increments it by exactly one; hence any successful sequence with
as many allocations as releases leaves `free_blocks()` unchanged. -/
theorem c8_conservation :
    (∀ bs n al R cfg s₀, mkAllocator bs n al R = .ok (cfg, s₀) →
       free_blocks s₀ = n) ∧
    (∀ cfg s p s₂, Reachable cfg s → 0 < cfg.stride →
       allocate cfg s = (.ok p, s₂) → free_blocks s₂ + 1 = free_blocks s) ∧
    (∀ cfg s a s₂, deallocate cfg s (some a) = (.ok (), s₂) →
       free_blocks s₂ = free_blocks s + 1) ∧
    (∀ cfg ops s s₂, Reachable cfg s → 0 < cfg.stride →
       countAlloc ops = countRelease ops → runOps cfg ops s = some s₂ →
       free_blocks s₂ = free_blocks s) := by
  refine ⟨?_, ?_, ?_, ?_⟩
  · intro bs n al R cfg s₀ h
    obtain ⟨_, hs, _⟩ := mkAllocator_ok bs n al R cfg s₀ h
    rw [hs]
    rfl
  · intro cfg s p s₂ hr hst ha
    exact (allocate_ok_inv cfg s p s₂ hst (reachable_inv cfg s hr hst) ha).2.2
  · intro cfg s a s₂ hd
    obtain ⟨_, _, hs2⟩ := deallocate_some_ok cfg s a s₂ hd
    rw [hs2]
    rfl
  · intro cfg ops s s₂ hr hst hcnt hrun
    have hc :=
      (runOps_conservation cfg ops s s₂ hst (reachable_inv cfg s hr hst) hrun).1
    unfold free_blocks
    omega

/-- Witness for C8 on `cfgEx`'s pool: construction yields 2 free blocks; one
`allocate` leaves 1; releasing it restores 2; the balanced sequence
`[allocate, deallocate 32]` leaves the count unchanged. -/
theorem c8_conservation_witness :
    free_blocks stEx = 2 ∧
    free_blocks stEx1 + 1 = free_blocks stEx ∧
    free_blocks stEx = free_blocks stEx1 + 1 ∧
    free_blocks stEx = free_blocks stEx :=
  ⟨c8_conservation.1 16 2 8 16 cfgEx stEx (by rfl),
   c8_conservation.2.1 cfgEx stEx 32 stEx1
     (Reachable.init 16 2 8 16 cfgEx stEx (by rfl)) (by decide) (by rfl),
   c8_conservation.2.2.1 cfgEx stEx1 32 stEx (by rfl),
   c8_conservation.2.2.2 cfgEx [Op.alloc, Op.dealloc (some 32)] stEx stEx
     (Reachable.init 16 2 8 16 cfgEx stEx (by rfl)) (by decide) (by rfl) (by rfl)⟩

/-- C9: right after a successful construction with `block_count = n` the
occupancy table is all-zero, the free-list threads the slots in reverse index
order, and the `n` consecutive `allocate` calls return the slot addresses in
descending index order — the `k`-th (1-based) returns slot `n - k`, so the
first returns the last-indexed slot, not slot 0. -/
theorem c9_initial_order (bs n al R : Nat) (cfg : Config) (s₀ : AllocState)
    (h : mkAllocator bs n al R = .ok (cfg, s₀)) (hst : 0 < cfg.stride) :
    s₀.occupancy = List.replicate n 0 ∧
    chainFrom cfg s₀.links s₀.free_list (List.range n).reverse ∧
    allocAddrs cfg n s₀ = some (((List.range n).reverse).map (slotAddr cfg)) := by
  obtain ⟨hcfg, hs, hbs, hn, _, _, _, _⟩ := mkAllocator_ok bs n al R cfg s₀ h
  have hchain : chainFrom cfg s₀.links s₀.free_list (List.range n).reverse := by
    subst hcfg
    subst hs
    rw [buildFreeList_eq]
    exact chainFrom_init _ _ rfl n (le_refl n)
  refine ⟨by rw [hs], hchain, ?_⟩
  have := allocAddrs_of_chain cfg (List.range n).reverse s₀ hst hchain
  rwa [List.length_reverse, List.length_range] at this

/-- Witness for C9 at the pool built by `mkAllocator 16 2 8 16`: the two
allocations return slot 1 (address 32) then slot 0 (address 16). -/
theorem c9_initial_order_witness :
    stEx.occupancy = List.replicate 2 0 ∧
    chainFrom cfgEx stEx.links stEx.free_list (List.range 2).reverse ∧
    allocAddrs cfgEx 2 stEx = some (((List.range 2).reverse).map (slotAddr cfgEx)) :=
  c9_initial_order 16 2 8 16 cfgEx stEx (by rfl) (by decide)

/-- C10 counterexample: the claim quantifies over every pointer `p`, but for
the null pointer it fails on the reachable freshly-built pool `stEx`:
`deallocate(nullptr)` succeeds (it is a no-op), yet the immediately following
`allocate` returns address 32, not the null pointer. -/
theorem c10_null_counterexample :
    Reachable cfgEx stEx ∧
    deallocate cfgEx stEx none = (.ok (), stEx) ∧
    ¬ ∃ q s₂, allocate cfgEx stEx = (.ok q, s₂) ∧ some q = (none : Option Nat) := by
  refine ⟨Reachable.init 16 2 8 16 cfgEx stEx (by rfl), rfl, ?_⟩
  rintro ⟨q, s₂, hq, hcontra⟩
  cases hcontra

/-- C10 (amended to non-null pointers): whenever `deallocate(p)` succeeds for
a non-null `p`, the immediately following `allocate` succeeds and returns
exactly `p` — the free-list is LIFO. -/
theorem c10_lifo (cfg : Config) (s : AllocState) (a : Nat) (s₂ : AllocState)
    (h : deallocate cfg s (some a) = (.ok (), s₂)) :
    ∃ s₃, allocate cfg s₂ = (.ok a, s₃) :=
  dealloc_alloc_lifo cfg s a s₂ h

/-- Witness for C10: releasing address 32 into `stEx1` and allocating again
returns 32. -/
theorem c10_lifo_witness : ∃ s₃, allocate cfgEx stEx = (.ok 32, s₃) :=
  c10_lifo cfgEx stEx1 32 stEx (by rfl)

end BlockAlloc
